import Mathlib

/-!
Shallow embedding of the jpatch package (Go): RFC 6902 patch validation
against a declarative path schema.

Sources embedded here (file `src/unnamed/part_000`, package `jpatch`, and
`src/jpatcherror`):
  * the operation constants `Add` … `Test`;
  * the `Patch`, `PathSegment`, `PathValue` data types;
  * `processSegment`, `traceObjectPathString`, `validatePath`,
    `validateFrom`, `validatePatch`, `validOperation`, `allowedOperation`,
    and the batch entry point `ProcessPatches` with its `Patchable`
    capability.

Modelling conventions:
  * Go strings are Lean `String` (a packed `List Char` in this toolchain);
    `strings.Split(s, "/")` is modelled by `splitSlash`, specialised to the
    single separator the source ever uses.
  * Go maps `map[string]*X` are association lists `List (String × X)`
    looked up with `lookupKV`; a missing key is `none` (the source never
    stores nil pointers under present keys and never depends on map order).
  * A Go nil slice and an empty slice are both `[]`.
  * `jpatcherror.Error` is `JError` holding message, code and details; the
    `origin interface{}` field is omitted because the core never inspects
    it and no claim refers to it.
  * `Patch.Value interface{}` is `Option α` for a value type `α`: the core
    only ever compares it with nil.
  * Go multiple-return `(string, error)` is `String × Option JError`;
    `traceObjectPathString`'s `(string, *PathValue, error)` is
    `Except JError (String × Option PathValue)` (every error return in the
    source carries `""` and nil for the other components).
-/

namespace Jpatch

-- Allow `decide` to compare `Except` results of the traced functions.
deriving instance DecidableEq for Except

/-- Operation constant `Add = "add"`. -/
def Add : String := "add"

/-- Operation constant `Remove = "remove"`. -/
def Remove : String := "remove"

/-- Operation constant `Replace = "replace"`. -/
def Replace : String := "replace"

/-- Operation constant `Move = "move"`. -/
def Move : String := "move"

/-- Operation constant `Copy = "copy"`. -/
def Copy : String := "copy"

/-- Operation constant `Test = "test"`. -/
def Test : String := "test"

/-- Error code `jpatcherror.ErrorInvalidOperation`. -/
def ErrorInvalidOperation : String := "InvalidOperation"

/-- Error code `jpatcherror.ErrorInvalidPath`. -/
def ErrorInvalidPath : String := "InvalidPath"

/-- Error code `jpatcherror.ErrorInvalidSegment`. -/
def ErrorInvalidSegment : String := "InvalidSegment"

/-- Error code `jpatcherror.ErrorInvalidValue`. -/
def ErrorInvalidValue : String := "InvalidValue"

/-- Error value of `jpatcherror`: message, code and free-text details
(`jpatcherror.New(message, code, details, origin)` with the never-inspected
`origin` omitted). -/
structure JError where
  Message : String
  Code : String
  Details : String
deriving DecidableEq, Repr

/-- The `Patch` record: one requested mutation.  `Value interface{}` is
modelled as `Option α`; the Go nil is `none`. -/
structure Patch (α : Type) where
  Op : String
  Path : String
  Value : Option α
  From : String
deriving DecidableEq, Repr

/-- Segment value `PathValue`: resolved identity of a segment — internal `Name` and the
operations permitted when the segment is terminal. -/
structure PathValue where
  Name : String
  SupportedOps : List String
deriving DecidableEq, Repr

/-- Schema node `PathSegment`: one node of the legal-path tree.  `Values` and
`Children` are Go maps keyed by external segment name (with `"*"` for
wildcards), modelled as association lists. -/
inductive PathSegment where
  | mk (Optional : Bool) (Wildcard : Bool)
       (Values : List (String × PathValue))
       (Children : List (String × PathSegment)) : PathSegment

/-- Field accessor for `PathSegment.Optional`. -/
def PathSegment.Optional : PathSegment → Bool
  | .mk o _ _ _ => o

/-- Field accessor for `PathSegment.Wildcard`. -/
def PathSegment.Wildcard : PathSegment → Bool
  | .mk _ w _ _ => w

/-- Field accessor for `PathSegment.Values`. -/
def PathSegment.Values : PathSegment → List (String × PathValue)
  | .mk _ _ v _ => v

/-- Field accessor for `PathSegment.Children`. -/
def PathSegment.Children : PathSegment → List (String × PathSegment)
  | .mk _ _ _ c => c

/-- Association-list lookup modelling a Go map read `m[key]`
(`none` when the key is absent). -/
def lookupKV {α : Type} : List (String × α) → String → Option α
  | [], _ => none
  | (k, v) :: rest, key => if k = key then some v else lookupKV rest key

/-- Split a list of characters at every `'/'` (Go `strings.Split` with
separator `"/"`, on the character list). -/
def splitSlashAux : List Char → List (List Char)
  | [] => [[]]
  | c :: rest =>
    if c = '/' then [] :: splitSlashAux rest
    else
      match splitSlashAux rest with
      | h :: t => (c :: h) :: t
      | [] => [[c]]

/-- Model of `strings.Split(s, "/")`: the pieces of `s` between slashes, in order;
always at least one (possibly empty) piece. -/
def splitSlash (s : String) : List String :=
  (splitSlashAux s.data).map String.mk

/-- Predicate `validOperation`: `op` is one of the six known operation constants. -/
def validOperation (op : String) : Bool :=
  [Add, Remove, Replace, Copy, Move, Test].any (fun o => op == o)

/-- Predicate `allowedOperation`: membership of `op` in the supported-operations
slice. -/
def allowedOperation (op : String) (ops : List String) : Bool :=
  ops.any (fun o => op == o)

/-- Go `fmt.Sprintf("%v", ops)` for a string slice: elements
space-separated inside square brackets (nil slice prints as an empty
pair of brackets). -/
def goFmtStrList (ops : List String) : String :=
  "[" ++ String.intercalate " " ops ++ "]"

/-- Function `processSegment`: resolve one literal path segment against a schema
node, returning the resolved `PathValue` and the child node for the next
level.  Wildcard nodes accept the literal as the value's name, take the
supported operations from `Values["*"]` when that entry exists, and look
the child up under `"*"`. -/
def processSegment (seg : PathSegment) (path : String) :
    Except JError (PathValue × Option PathSegment) :=
  if seg.Wildcard then
    let supported : List String :=
      match lookupKV seg.Values "*" with
      | some pv => pv.SupportedOps
      | none => []
    .ok (⟨path, supported⟩, lookupKV seg.Children "*")
  else
    match lookupKV seg.Values path with
    | none =>
      .error ⟨"Invalid path", ErrorInvalidSegment, "unknown segement: " ++ path⟩
    | some pv => .ok (pv, lookupKV seg.Children path)

/-- Loop body of `traceObjectPathString`: walk the remaining segments with
the current schema node, the accumulated internal path and the last
resolved value.  The source checks, in order: the append-marker `-` must
be final; a non-optional child must not be left unvisited at the last
segment; remaining segments need a child node.  The Go loop keeps a
possibly-nil cursor; here the cursor is split into the two `nextSeg`
cases, which preserves the check order because the required-child check
can only fire when `nextSeg` exists and the undefined-segment check only
when it does not. -/
def traceLoop (origPath : String) (currentSegment : PathSegment)
    (finalPath : String) (lastPath : Option PathValue) :
    List String → Except JError (String × Option PathValue)
  | [] => .ok (finalPath, lastPath)
  | pathSeg :: rest =>
    match processSegment currentSegment pathSeg with
    | .error e => .error e
    | .ok (pathValue, nextSeg) =>
      match nextSeg with
      | some ns =>
        if pathValue.Name = "-" ∧ rest ≠ [] then
          .error ⟨"Invalid Path", ErrorInvalidPath, "'-' must be final path segment"⟩
        else if rest = [] ∧ ns.Optional = false then
          .error ⟨"Invalid Path", ErrorInvalidPath, "required path segment missing"⟩
        else
          traceLoop origPath ns (finalPath ++ "/" ++ pathValue.Name) (some pathValue) rest
      | none =>
        if pathValue.Name = "-" ∧ rest ≠ [] then
          .error ⟨"Invalid Path", ErrorInvalidPath, "'-' must be final path segment"⟩
        else if rest ≠ [] then
          .error ⟨"Invalid path", ErrorInvalidPath, "path reaches undefined segment: " ++ origPath⟩
        else
          .ok (finalPath ++ "/" ++ pathValue.Name, some pathValue)

/-- Function `traceObjectPathString`: validate `path` against the schema rooted at
`root`, producing the internal (name-substituted) path and the value of
the final segment.  The `op` parameter is carried but unused, exactly as
in the source. -/
def traceObjectPathString (path op : String) (root : PathSegment) :
    Except JError (String × Option PathValue) :=
  traceLoop path root "" none ((splitSlash path).drop 1)

/-- Function `validatePath`: trace `path`, then reject `remove`/`test`/`replace`
aimed at a terminal named `-`, then enforce the terminal's supported
operations.  On an error the returned path is `""`, as in the source.
The `none` terminal case only arises for a path with zero segments, where
the Go code would dereference a nil pointer; `ProcessPatches` guards it
behind `validatePatch`'s non-empty-path check. -/
def validatePath (path op : String) (root : PathSegment) :
    String × Option JError :=
  match traceObjectPathString path op root with
  | .error e => ("", some e)
  | .ok (finalPath, lastVal) =>
    match lastVal with
    | none => (finalPath, none)
    | some v =>
      if v.Name = "-" ∧ (op = Remove ∨ op = Test ∨ op = Replace) then
        ("", some ⟨"Invalid Operation", ErrorInvalidOperation,
          "cannot " ++ op ++ " array index of '-'"⟩)
      else if allowedOperation op v.SupportedOps = false then
        ("", some ⟨"Invalid operation", ErrorInvalidOperation,
          "supported operations are: " ++ goFmtStrList v.SupportedOps⟩)
      else (finalPath, none)

/-- Function `validateFrom`: trace the `from` path, then compare the returned
internal path — not the terminal value's name — with `"-"`, exactly as the
source does. -/
def validateFrom (path op : String) (root : PathSegment) :
    String × Option JError :=
  match traceObjectPathString path op root with
  | .error e => ("", some e)
  | .ok (finalPath, _) =>
    if finalPath = "-" then
      ("", some ⟨"Invalid Operation", ErrorInvalidOperation,
        "cannot " ++ op ++ " array index of '-'"⟩)
    else (finalPath, none)

/-- Function `validatePatch`: the schema-independent shape check on a single patch
record. -/
def validatePatch {α : Type} (p : Patch α) : Option JError :=
  if validOperation p.Op = false then
    some ⟨"Invalid operation", ErrorInvalidOperation,
      "supported operations are: " ++ Add ++ ", " ++ Remove ++ ", " ++ Replace
        ++ ", " ++ Copy ++ ", " ++ Move ++ " and " ++ Test⟩
  else
    let split := (splitSlash p.Path).drop 1
    if split.length = 0 ∨ (split.length = 1 ∧ split.headD "" = "") then
      some ⟨"Empty Paths Not Supported", ErrorInvalidPath, "paths must begin with /"⟩
    else if (p.Op = Copy ∨ p.Op = Move) ∧
        (let fsplit := (splitSlash p.From).drop 1
         fsplit.length = 0 ∨ (fsplit.length = 1 ∧ fsplit.headD "" = "")) then
      some ⟨"From path required", ErrorInvalidPath, "copy and move operations require from"⟩
    else if (p.Op = Add ∨ p.Op = Replace ∨ p.Op = Test) ∧ p.Value.isNone = true then
      some ⟨"Value required", ErrorInvalidValue, "value required for " ++ p.Op⟩
    else none

/-- The `Patchable` capability: the schema root and the finalizer
`ValidateJPatchPatches`. -/
structure Patchable (α : Type) where
  GetJPatchRootSegment : PathSegment
  ValidateJPatchPatches : List (Patch α) → Option (List (Patch α)) × List JError

/-- Mutable state of the `ProcessPatches` loop: the accumulated error list
and the four operation buckets. -/
structure PState (α : Type) where
  errs : List JError
  vAdd : List (Patch α)
  vRemove : List (Patch α)
  vMove : List (Patch α)
  vReplace : List (Patch α)
deriving DecidableEq, Repr

/-- One iteration of the `ProcessPatches` loop: shape-check the patch
(appending its error and skipping the rest on failure), validate and
substitute `path`, validate and substitute a non-empty `from`, and append
the patch to the bucket of its operation.  Path and from errors are
collected without skipping the bucket append, exactly as in the source. -/
def processOne {α : Type} (root : PathSegment) (st : PState α) (p : Patch α) :
    PState α :=
  match validatePatch p with
  | some err => { st with errs := st.errs ++ [err] }
  | none =>
    let pr := validatePath p.Path p.Op root
    let errs1 := match pr.2 with
      | some e => st.errs ++ [e]
      | none => st.errs
    let p1 : Patch α := { p with Path := pr.1 }
    let step2 : Patch α × List JError :=
      if p1.From ≠ "" then
        let fr := validateFrom p1.From p1.Op root
        ({ p1 with From := fr.1 },
          match fr.2 with
          | some e => errs1 ++ [e]
          | none => errs1)
      else (p1, errs1)
    let p2 := step2.1
    let st1 : PState α := { st with errs := step2.2 }
    if p2.Op = Add then { st1 with vAdd := st1.vAdd ++ [p2] }
    else if p2.Op = Move then { st1 with vMove := st1.vMove ++ [p2] }
    else if p2.Op = Remove then { st1 with vRemove := st1.vRemove ++ [p2] }
    else if p2.Op = Replace then { st1 with vReplace := st1.vReplace ++ [p2] }
    else st1

/-- Entry point `ProcessPatches`: validate the whole batch, concatenate the buckets in
the fixed order remove, replace, move, add, and either report every
accumulated error or hand the reordered patches to the finalizer. -/
def ProcessPatches {α : Type} (patches : List (Patch α)) (pable : Patchable α) :
    Option (List (Patch α)) × List JError :=
  let root := pable.GetJPatchRootSegment
  let st := patches.foldl (processOne root) ⟨[], [], [], [], []⟩
  let vPatches := st.vRemove ++ st.vReplace ++ st.vMove ++ st.vAdd
  if st.errs ≠ [] then (none, st.errs)
  else pable.ValidateJPatchPatches vPatches

/-!
Specification-side definitions.  These restate, in the words of the
specification, what the traced functions are claimed to compute; the
theorems below compare them with the embedded source functions.
-/

/-- Resolution of one segment as the specification describes it: a
wildcard node keeps the literal text as the name and takes the supported
operations from the declared `Values["*"]` entry (none declared means no
operations); a non-wildcard node looks the literal up in `Values`. -/
def resolveSegmentSpec (seg : PathSegment) (lit : String) : Option PathValue :=
  if seg.Wildcard then
    some ⟨lit,
      match lookupKV seg.Values "*" with
      | some pv => pv.SupportedOps
      | none => []⟩
  else lookupKV seg.Values lit

/-- Child node for the next level: wildcard nodes look up under the
wildcard sentinel key. -/
def childFor (seg : PathSegment) (lit : String) : Option PathSegment :=
  lookupKV seg.Children (if seg.Wildcard then "*" else lit)

/-- Specification-side trace: the list of `PathValue`s resolved for the
segments of a path, one per segment, descending through the children. -/
def traceValuesSpec (seg : PathSegment) : List String → Option (List PathValue)
  | [] => some []
  | lit :: rest =>
    match resolveSegmentSpec seg lit with
    | none => none
    | some v =>
      match rest with
      | [] => some [v]
      | _ :: _ =>
        match childFor seg lit with
        | none => none
        | some ns => (traceValuesSpec ns rest).map (fun vs => v :: vs)

/-- Internal path built from resolved values: the names joined by the
separator, one leading separator per segment. -/
def joinNames : List PathValue → String
  | [] => ""
  | v :: vs => "/" ++ v.Name ++ joinNames vs

/-- Failure conditions of a trace as the specification lists them, checked
during left-to-right descent, first hit wins: unknown literal at a
non-wildcard node; a segment resolving to `-` that is not last; a
non-optional child left unvisited at the last segment; remaining segments
with no child node.  Returns the error produced, `none` when the descent
succeeds. -/
def traceFailSpec (origPath : String) : PathSegment → List String → Option JError
  | _, [] => none
  | seg, lit :: rest =>
    if seg.Wildcard = false ∧ lookupKV seg.Values lit = none then
      some ⟨"Invalid path", ErrorInvalidSegment, "unknown segement: " ++ lit⟩
    else
      match resolveSegmentSpec seg lit with
      | none => none
      | some v =>
        if v.Name = "-" ∧ rest ≠ [] then
          some ⟨"Invalid Path", ErrorInvalidPath, "'-' must be final path segment"⟩
        else
          match childFor seg lit, rest with
          | some ns, [] =>
            if ns.Optional = false then
              some ⟨"Invalid Path", ErrorInvalidPath, "required path segment missing"⟩
            else none
          | none, [] => none
          | some ns, _ :: _ => traceFailSpec origPath ns rest
          | none, _ :: _ =>
            some ⟨"Invalid path", ErrorInvalidPath,
              "path reaches undefined segment: " ++ origPath⟩

/-- Emptiness of a split path as the source checks it: the post-separator
split is empty, or is exactly one empty segment (the path is `""` or a
bare separator). -/
def hasNoSegmentSplit (s : String) : Prop :=
  (splitSlash s).drop 1 = [] ∨ (splitSlash s).drop 1 = [""]

instance (s : String) : Decidable (hasNoSegmentSplit s) := by
  unfold hasNoSegmentSplit; infer_instance

/-!
Helper definitions used to characterise the `ProcessPatches` loop.
-/

/-- List of the errors an optional error contributes. -/
def optErrList : Option JError → List JError
  | some e => [e]
  | none => []

/-- Errors that one patch contributes during its loop iteration: its shape
error alone when shape validation fails, otherwise the path error (if any)
followed by the from error (if any, for a non-empty `from`). -/
def patchErrors {α : Type} (root : PathSegment) (p : Patch α) : List JError :=
  match validatePatch p with
  | some e => [e]
  | none =>
    optErrList (validatePath p.Path p.Op root).2 ++
      (if p.From ≠ "" then optErrList (validateFrom p.From p.Op root).2 else [])

/-- Normalised form of a patch after its loop iteration: `Path` replaced
by `validatePath`'s returned path, and a non-empty `From` replaced by
`validateFrom`'s returned path. -/
def normalizePatch {α : Type} (root : PathSegment) (p : Patch α) : Patch α :=
  let p1 : Patch α := { p with Path := (validatePath p.Path p.Op root).1 }
  if p1.From ≠ "" then { p1 with From := (validateFrom p1.From p1.Op root).1 }
  else p1

/-- A patch passes validation: its shape check, its path check, and (for a
non-empty `from`) its from check all return no error. -/
def patchOK {α : Type} (root : PathSegment) (p : Patch α) : Prop :=
  validatePatch p = none ∧ (validatePath p.Path p.Op root).2 = none ∧
    (p.From ≠ "" → (validateFrom p.From p.Op root).2 = none)

instance {α : Type} (root : PathSegment) (p : Patch α) : Decidable (patchOK root p) := by
  unfold patchOK; infer_instance

/-- In-order concatenation of every patch's errors. -/
def collectErrors {α : Type} (root : PathSegment) : List (Patch α) → List JError
  | [] => []
  | p :: rest => patchErrors root p ++ collectErrors root rest

/-- Bucket of the normalised patches whose operation is `opName`, in input
order, restricted to the patches that pass the shape check (the loop skips
the others before the bucket switch). -/
def bucket {α : Type} (root : PathSegment) (opName : String)
    (patches : List (Patch α)) : List (Patch α) :=
  ((patches.filter (fun p => (validatePatch p).isNone)).map (normalizePatch root)).filter
    (fun q => q.Op == opName)

/-- Finalizer that accepts the handed patches unchanged. -/
def idFinalizer (α : Type) : List (Patch α) → Option (List (Patch α)) × List JError :=
  fun ps => (some ps, [])

/-!
Example schema, after the specification's §8: a root accepting `rFoo`
(renamed `foo`), below it `foo` (child `bar`/`baz` leaves), a wildcard
`wild` with a required child, a wildcard leaf `wild2` with declared
wildcard operations, and a wildcard leaf `wild3` with no `Values["*"]`
entry.
-/

/-- Leaf with plain values `bar` (ops copy, remove) and `baz` (all six). -/
def exBarLeaf : PathSegment := .mk false false
  [("bar", ⟨"bar", ["copy", "remove"]⟩),
   ("baz", ⟨"baz", [Add, Remove, Replace, Move, Copy, Test]⟩)] []

/-- Non-optional leaf below the wildcard node. -/
def exWildChild : PathSegment := .mk false false [("bar", ⟨"bar", ["add"]⟩)] []

/-- Wildcard node with a required child. -/
def exWild : PathSegment := .mk false true [("*", ⟨"*", ["add"]⟩)] [("*", exWildChild)]

/-- Wildcard leaf with declared wildcard operations. -/
def exWild2 : PathSegment := .mk false true [("*", ⟨"*", ["add", "move", "copy"]⟩)] []

/-- Wildcard leaf with no `Values["*"]` entry. -/
def exWild3 : PathSegment := .mk false true [] []

/-- Intermediate node under `rFoo`. -/
def exFoo : PathSegment := .mk false false
  [("foo", ⟨"foo", []⟩), ("wild", ⟨"wild", []⟩), ("wild2", ⟨"wild2", []⟩),
   ("wild3", ⟨"wild3", []⟩)]
  [("foo", exBarLeaf), ("wild", exWild), ("wild2", exWild2), ("wild3", exWild3)]

/-- Example schema root: external `rFoo` renamed to internal `foo`. -/
def exRoot : PathSegment := .mk false false [("rFoo", ⟨"foo", []⟩)] [("rFoo", exFoo)]

/-!
Bridging lemmas.
-/

/-- Membership reading of the `validOperation` loop. -/
lemma validOperation_iff (op : String) :
    validOperation op = true ↔
      op = Add ∨ op = Remove ∨ op = Replace ∨ op = Copy ∨ op = Move ∨ op = Test := by
  unfold validOperation Add Remove Replace Copy Move Test
  simp [List.any_cons, List.any_nil]

/-- Membership reading of the `allowedOperation` loop. -/
lemma allowedOperation_iff (op : String) (ops : List String) :
    allowedOperation op ops = true ↔ op ∈ ops := by
  unfold allowedOperation
  rw [List.any_eq_true]
  constructor
  · rintro ⟨o, ho, hbeq⟩
    rw [beq_iff_eq] at hbeq
    rw [hbeq]; exact ho
  · intro hmem
    exact ⟨op, hmem, beq_self_eq_true op⟩

/-- The segment processor, re-expressed through the specification-side
resolution and child lookup. -/
lemma processSegment_eq (seg : PathSegment) (lit : String) :
    processSegment seg lit =
      match resolveSegmentSpec seg lit with
      | none =>
        .error ⟨"Invalid path", ErrorInvalidSegment, "unknown segement: " ++ lit⟩
      | some v => .ok (v, childFor seg lit) := by
  unfold processSegment resolveSegmentSpec childFor
  cases hw : seg.Wildcard <;> simp [hw]

/-- Resolution fails exactly at an unknown literal of a non-wildcard
node. -/
lemma resolveSegmentSpec_none_iff (seg : PathSegment) (lit : String) :
    resolveSegmentSpec seg lit = none ↔
      seg.Wildcard = false ∧ lookupKV seg.Values lit = none := by
  unfold resolveSegmentSpec
  cases hw : seg.Wildcard <;> simp [hw]

/-- Inversion of a successful segment resolution. -/
lemma processSegment_ok_inv {seg : PathSegment} {lit : String} {v : PathValue}
    {c : Option PathSegment} (h : processSegment seg lit = .ok (v, c)) :
    resolveSegmentSpec seg lit = some v ∧ childFor seg lit = c := by
  rw [processSegment_eq] at h
  split at h
  · exact Except.noConfusion h
  · rename_i v' hres
    injection h with h2
    injection h2 with hv hc
    subst hv
    exact ⟨hres, hc⟩

lemma traceLoop_ok_spec (origPath : String) (segs : List String) :
    ∀ (seg : PathSegment) (fpAcc : String) (lastAcc : Option PathValue)
      (fp : String) (lv : Option PathValue),
      segs ≠ [] →
      traceLoop origPath seg fpAcc lastAcc segs = .ok (fp, lv) →
      ∃ vs : List PathValue,
        traceValuesSpec seg segs = some vs ∧
        vs.length = segs.length ∧
        fp = fpAcc ++ joinNames vs ∧
        lv = vs.getLast? := by
  induction segs with
  | nil => intro seg fpAcc lastAcc fp lv hne; exact absurd rfl hne
  | cons lit rest ih =>
    intro seg fpAcc lastAcc fp lv _ h
    simp only [traceLoop] at h
    split at h
    · exact Except.noConfusion h
    · rename_i pathValue nextSeg heq
      split at h
      · rename_i ns
        split at h
        · exact Except.noConfusion h
        · split at h
          · exact Except.noConfusion h
          · obtain ⟨hres, hch⟩ := processSegment_ok_inv heq
            cases rest with
            | nil =>
              simp only [traceLoop, Except.ok.injEq, Prod.mk.injEq] at h
              obtain ⟨h1, h2⟩ := h
              refine ⟨[pathValue], ?_, rfl, ?_, ?_⟩
              · simp [traceValuesSpec, hres]
              · rw [← h1, String.append_assoc]
                simp [joinNames]
              · simp [← h2]
            | cons r0 rs =>
              obtain ⟨vs', hspec, hlen, hfp, hlast⟩ :=
                ih ns (fpAcc ++ "/" ++ pathValue.Name) (some pathValue) fp lv
                  (by simp) h
              refine ⟨pathValue :: vs', ?_, ?_, ?_, ?_⟩
              · have hstep : traceValuesSpec seg (lit :: r0 :: rs)
                    = (traceValuesSpec ns (r0 :: rs)).map (fun vs => pathValue :: vs) := by
                  simp only [traceValuesSpec, hres, hch]
                rw [hstep, hspec]
                rfl
              · simp [hlen]
              · rw [hfp, String.append_assoc]
                simp [joinNames, String.append_assoc]
              · rw [hlast]
                cases vs' with
                | nil => simp at hlen
                | cons w ws => simp
      · split at h
        · exact Except.noConfusion h
        · split at h
          · exact Except.noConfusion h
          · rename_i hrest
            obtain ⟨hres, hch⟩ := processSegment_ok_inv heq
            have hrest' : rest = [] := by
              by_contra hc
              exact hrest hc
            subst hrest'
            simp only [Except.ok.injEq, Prod.mk.injEq] at h
            obtain ⟨h1, h2⟩ := h
            refine ⟨[pathValue], ?_, rfl, ?_, ?_⟩
            · simp [traceValuesSpec, hres]
            · rw [← h1, String.append_assoc]
              simp [joinNames]
            · simp [← h2]

/-- Failure characterisation of the trace loop: it returns an error
exactly when the specification-side condition list produces that error. -/
lemma traceLoop_error_iff (origPath : String) (segs : List String) :
    ∀ (seg : PathSegment) (fpAcc : String) (lastAcc : Option PathValue) (e : JError),
      (traceLoop origPath seg fpAcc lastAcc segs = .error e ↔
        traceFailSpec origPath seg segs = some e) := by
  induction segs with
  | nil =>
    intro seg fpAcc lastAcc e
    simp [traceLoop, traceFailSpec]
  | cons lit rest ih =>
    intro seg fpAcc lastAcc e
    cases hres : resolveSegmentSpec seg lit with
    | none =>
      obtain ⟨hw, hlk⟩ := (resolveSegmentSpec_none_iff seg lit).mp hres
      simp only [traceLoop, processSegment_eq, traceFailSpec, hres]
      rw [if_pos ⟨hw, hlk⟩]
      simp
    | some v =>
      have hno : ¬(seg.Wildcard = false ∧ lookupKV seg.Values lit = none) := by
        intro hc
        rw [(resolveSegmentSpec_none_iff seg lit).mpr hc] at hres
        exact Option.noConfusion hres
      cases hch : childFor seg lit with
      | some ns =>
        cases rest with
        | nil =>
          simp only [traceLoop, processSegment_eq, traceFailSpec, hres, hch, if_neg hno]
          by_cases hopt : ns.Optional = false
          · simp [hopt]
          · simp [hopt, traceLoop]
        | cons r0 rs =>
          simp only [traceLoop, processSegment_eq, traceFailSpec, hres, hch, if_neg hno]
          by_cases hd : v.Name = "-"
          · simp [hd]
          · rw [if_neg (show ¬(v.Name = "-" ∧ r0 :: rs ≠ []) from fun hc => hd hc.1),
              if_neg (show ¬(v.Name = "-" ∧ r0 :: rs ≠ []) from fun hc => hd hc.1),
              if_neg (show ¬((r0 :: rs : List String) = [] ∧ ns.Optional = false) from
                fun hc => List.cons_ne_nil r0 rs hc.1)]
            simpa only [traceLoop, processSegment_eq, traceFailSpec]
              using ih ns (fpAcc ++ "/" ++ v.Name) (some v) e
      | none =>
        cases rest with
        | nil =>
          simp only [traceLoop, processSegment_eq, traceFailSpec, hres, hch, if_neg hno]
          simp
        | cons r0 rs =>
          simp only [traceLoop, processSegment_eq, traceFailSpec, hres, hch, if_neg hno]
          by_cases hd : v.Name = "-"
          · simp [hd]
          · simp [hd]


/-!
Claim theorems.
-/

/-- C1: for every path string that traces successfully through a schema,
`traceObjectPathString` returns the internal path obtained by substituting
each segment's external name with its `PathValue` name (wildcard nodes
keep the literal text and take their supported operations from the
declared `Values["*"]` entry), joined by the separator with one name per
input segment, together with the `PathValue` of the final segment. -/
theorem c1_trace_success_substitution (path op : String) (root : PathSegment)
    (fp : String) (lastVal : PathValue)
    (h : traceObjectPathString path op root = .ok (fp, some lastVal)) :
    ∃ vs : List PathValue,
      traceValuesSpec root ((splitSlash path).drop 1) = some vs ∧
      vs.length = ((splitSlash path).drop 1).length ∧
      fp = joinNames vs ∧
      vs.getLast? = some lastVal := by
  unfold traceObjectPathString at h
  generalize hsegs : (splitSlash path).drop 1 = segs at h ⊢
  cases segs with
  | nil =>
    simp only [traceLoop, Except.ok.injEq, Prod.mk.injEq] at h
    exact absurd h.2 (by simp)
  | cons s ss =>
    obtain ⟨vs, hspec, hlen, hfp, hlast⟩ :=
      traceLoop_ok_spec path (s :: ss) root "" none fp (some lastVal) (by simp) h
    refine ⟨vs, hspec, hlen, ?_, hlast.symm⟩
    rw [hfp]
    exact (String.empty_append _).symm

/-- Witness for C1: tracing `/rFoo/foo/bar` through the example schema
succeeds with internal path `/foo/foo/bar` and terminal value `bar`. -/
theorem c1_trace_success_substitution_witness :
    traceObjectPathString "/rFoo/foo/bar" Add exRoot =
      .ok ("/foo/foo/bar", some ⟨"bar", ["copy", "remove"]⟩) ∧
    ∃ vs : List PathValue,
      traceValuesSpec exRoot ((splitSlash "/rFoo/foo/bar").drop 1) = some vs ∧
      vs.length = ((splitSlash "/rFoo/foo/bar").drop 1).length ∧
      "/foo/foo/bar" = joinNames vs ∧
      vs.getLast? = some ⟨"bar", ["copy", "remove"]⟩ :=
  ⟨by decide,
    c1_trace_success_substitution "/rFoo/foo/bar" Add exRoot "/foo/foo/bar"
      ⟨"bar", ["copy", "remove"]⟩ (by decide)⟩

/-- C2: `traceObjectPathString` fails exactly when, during left-to-right
descent, a literal is unknown at a non-wildcard node (`InvalidSegment`), a
segment resolves to `-` without being last (`InvalidPath`, `-` must be
final), the last segment leaves a non-optional child unvisited
(`InvalidPath`, required segment missing), or segments remain with no
child node (`InvalidPath`, undefined segment); otherwise it succeeds, so
in particular a `-` that is genuinely final at a leaf traces
successfully. -/
theorem c2_trace_failure_conditions (path op : String) (root : PathSegment)
    (e : JError) :
    traceObjectPathString path op root = .error e ↔
      traceFailSpec path root ((splitSlash path).drop 1) = some e :=
  traceLoop_error_iff path ((splitSlash path).drop 1) root "" none e

/-- Reduction of `validatePath` after a successful trace. -/
lemma validatePath_ok_reduce {path op : String} {root : PathSegment}
    {fp : String} {v : PathValue}
    (h : traceObjectPathString path op root = .ok (fp, some v)) :
    validatePath path op root =
      if v.Name = "-" ∧ (op = Remove ∨ op = Test ∨ op = Replace) then
        ("", some ⟨"Invalid Operation", ErrorInvalidOperation,
          "cannot " ++ op ++ " array index of '-'"⟩)
      else if allowedOperation op v.SupportedOps = false then
        ("", some ⟨"Invalid operation", ErrorInvalidOperation,
          "supported operations are: " ++ goFmtStrList v.SupportedOps⟩)
      else (fp, none) := by
  simp only [validatePath, h]

/-- C3: for every patch whose path traces successfully, `validatePath`
fails with `InvalidOperation` (cannot op the append marker) when the
terminal name is `-` and op is remove, test or replace; otherwise fails
with `InvalidOperation` listing the supported set when op is not a member
of the terminal's `SupportedOps`; otherwise returns the internal path. -/
theorem c3_validatePath_terminal_checks (path op : String) (root : PathSegment)
    (fp : String) (v : PathValue)
    (h : traceObjectPathString path op root = .ok (fp, some v)) :
    (v.Name = "-" ∧ (op = Remove ∨ op = Test ∨ op = Replace) →
      validatePath path op root =
        ("", some ⟨"Invalid Operation", ErrorInvalidOperation,
          "cannot " ++ op ++ " array index of '-'"⟩)) ∧
    (¬(v.Name = "-" ∧ (op = Remove ∨ op = Test ∨ op = Replace)) →
      op ∉ v.SupportedOps →
      validatePath path op root =
        ("", some ⟨"Invalid operation", ErrorInvalidOperation,
          "supported operations are: " ++ goFmtStrList v.SupportedOps⟩)) ∧
    (¬(v.Name = "-" ∧ (op = Remove ∨ op = Test ∨ op = Replace)) →
      op ∈ v.SupportedOps →
      validatePath path op root = (fp, none)) := by
  refine ⟨?_, ?_, ?_⟩
  · intro hc
    rw [validatePath_ok_reduce h, if_pos hc]
  · intro hc hmem
    have hall : allowedOperation op v.SupportedOps = false := by
      cases hb : allowedOperation op v.SupportedOps
      · rfl
      · exact absurd ((allowedOperation_iff op _).mp hb) hmem
    rw [validatePath_ok_reduce h, if_neg hc, if_pos hall]
  · intro hc hmem
    have hall : ¬(allowedOperation op v.SupportedOps = false) := by
      rw [(allowedOperation_iff op _).mpr hmem]
      simp
    rw [validatePath_ok_reduce h, if_neg hc, if_neg hall]

/-- Witness for C3: at a terminal with supported operations copy and
remove, op test fails and op copy succeeds. -/
theorem c3_validatePath_terminal_checks_witness :
    validatePath "/rFoo/foo/bar" Test exRoot =
      ("", some ⟨"Invalid operation", ErrorInvalidOperation,
        "supported operations are: " ++ goFmtStrList ["copy", "remove"]⟩) ∧
    validatePath "/rFoo/foo/bar" Copy exRoot = ("/foo/foo/bar", none) :=
  ⟨(c3_validatePath_terminal_checks "/rFoo/foo/bar" Test exRoot "/foo/foo/bar"
      ⟨"bar", ["copy", "remove"]⟩ (by decide)).2.1 (by decide) (by decide),
   (c3_validatePath_terminal_checks "/rFoo/foo/bar" Copy exRoot "/foo/foo/bar"
      ⟨"bar", ["copy", "remove"]⟩ (by decide)).2.2 (by decide) (by decide)⟩

/-- C10: when a path traces to a terminal whose `SupportedOps` is empty —
for example any wildcard terminal of a node without a `Values["*"]`
entry — `validatePath` fails with kind `InvalidOperation` for every one of
the six operations. -/
theorem c10_empty_supported_ops (path op fp : String) (root : PathSegment)
    (v : PathValue)
    (h1 : traceObjectPathString path op root = .ok (fp, some v))
    (h2 : v.SupportedOps = [])
    (h3 : op ∈ [Add, Remove, Replace, Move, Copy, Test]) :
    (validatePath path op root).1 = "" ∧
    ((validatePath path op root).2).map JError.Code = some ErrorInvalidOperation := by
  have hall : allowedOperation op v.SupportedOps = false := by
    rw [h2]
    rfl
  by_cases hdash : v.Name = "-" ∧ (op = Remove ∨ op = Test ∨ op = Replace)
  · rw [validatePath_ok_reduce h1, if_pos hdash]
    exact ⟨rfl, rfl⟩
  · rw [validatePath_ok_reduce h1, if_neg hdash, if_pos hall]
    exact ⟨rfl, rfl⟩

/-- Witness for C10: a test aimed at the bare wildcard terminal of the
example schema is rejected with `InvalidOperation`. -/
theorem c10_empty_supported_ops_witness :
    (validatePath "/rFoo/wild3/x" Test exRoot).1 = "" ∧
    ((validatePath "/rFoo/wild3/x" Test exRoot).2).map JError.Code =
      some ErrorInvalidOperation :=
  c10_empty_supported_ops "/rFoo/wild3/x" Test "/foo/wild3/x" exRoot ⟨"x", []⟩
    (by decide) rfl (by decide)

/-- The source's two-part emptiness test on a split equals the two-list
characterisation. -/
lemma emptySplit_iff (l : List String) :
    (l.length = 0 ∨ (l.length = 1 ∧ l.headD "" = "")) ↔ (l = [] ∨ l = [""]) := by
  cases l with
  | nil => simp
  | cons a t =>
    cases t with
    | nil => simp [List.headD]
    | cons b t2 => simp

/-- Counterexample to C4 as stated: the path `//` has no non-empty
segment after the leading separator, yet `validatePatch` accepts the
patch (the source only rejects a split that is empty or a single empty
segment). -/
theorem c4_counterexample :
    validatePatch (α := String) ⟨"remove", "//", none, ""⟩ = none ∧
    (((splitSlash "//").drop 1).all fun s => s == "") = true :=
  ⟨by decide, by decide⟩

/-- C4 (amended): `validatePatch` fails with `InvalidOperation` for an
unknown op; with `InvalidPath` (Empty Paths Not Supported) when the path's
post-separator split is empty or a single empty segment (the path is empty
or a bare separator — not, as originally claimed, whenever no non-empty
segment exists); with `InvalidPath` (From path required) when op is copy
or move and `from` splits the same way; with `InvalidValue` when op is
add, replace or test and `value` is nil; and succeeds otherwise. -/
theorem c4_validatePatch_shape {α : Type} (p : Patch α) :
    validatePatch p =
      if ¬(p.Op = Add ∨ p.Op = Remove ∨ p.Op = Replace ∨ p.Op = Copy ∨
            p.Op = Move ∨ p.Op = Test) then
        some ⟨"Invalid operation", ErrorInvalidOperation,
          "supported operations are: add, remove, replace, copy, move and test"⟩
      else if hasNoSegmentSplit p.Path then
        some ⟨"Empty Paths Not Supported", ErrorInvalidPath, "paths must begin with /"⟩
      else if (p.Op = Copy ∨ p.Op = Move) ∧ hasNoSegmentSplit p.From then
        some ⟨"From path required", ErrorInvalidPath, "copy and move operations require from"⟩
      else if (p.Op = Add ∨ p.Op = Replace ∨ p.Op = Test) ∧ p.Value.isNone = true then
        some ⟨"Value required", ErrorInvalidValue, "value required for " ++ p.Op⟩
      else none := by
  simp only [validatePatch]
  by_cases h1 : p.Op = Add ∨ p.Op = Remove ∨ p.Op = Replace ∨ p.Op = Copy ∨
      p.Op = Move ∨ p.Op = Test
  · have ht := (validOperation_iff p.Op).mpr h1
    rw [if_neg (show ¬(validOperation p.Op = false) from by
        rw [ht]; intro hc; exact Bool.noConfusion hc),
      if_neg (not_not_intro h1)]
    by_cases h2 : hasNoSegmentSplit p.Path
    · rw [if_pos ((emptySplit_iff _).mpr h2), if_pos h2]
    · rw [if_neg (fun hc => h2 ((emptySplit_iff _).mp hc)), if_neg h2]
      by_cases h3 : (p.Op = Copy ∨ p.Op = Move) ∧ hasNoSegmentSplit p.From
      · rw [if_pos ⟨h3.1, (emptySplit_iff _).mpr h3.2⟩, if_pos h3]
      · rw [if_neg (fun hc => h3 ⟨hc.1, (emptySplit_iff _).mp hc.2⟩), if_neg h3]
  · have hvo : validOperation p.Op = false := by
      cases hb : validOperation p.Op
      · rfl
      · exact absurd ((validOperation_iff p.Op).mp hb) h1
    rw [if_pos hvo, if_pos h1]
    rfl

/-- Distinctness of the operation constants (add and move). -/
lemma op_ne_add_move : Add ≠ Move := by decide

/-- Distinctness of the operation constants (add and remove). -/
lemma op_ne_add_remove : Add ≠ Remove := by decide

/-- Distinctness of the operation constants (add and replace). -/
lemma op_ne_add_replace : Add ≠ Replace := by decide

/-- Distinctness of the operation constants (move and remove). -/
lemma op_ne_move_remove : Move ≠ Remove := by decide

/-- Distinctness of the operation constants (move and replace). -/
lemma op_ne_move_replace : Move ≠ Replace := by decide

/-- Distinctness of the operation constants (remove and replace). -/
lemma op_ne_remove_replace : Remove ≠ Replace := by decide

/-- Normalisation never changes the operation. -/
lemma normalizePatch_Op {α : Type} (root : PathSegment) (p : Patch α) :
    (normalizePatch root p).Op = p.Op := by
  simp only [normalizePatch]
  split <;> rfl

/-- One loop iteration, decomposed: it appends the patch's errors to the
accumulator and the normalised patch to the bucket of its operation (when
the shape check passed). -/
lemma processOne_eq {α : Type} (root : PathSegment) (st : PState α) (p : Patch α) :
    processOne root st p =
      { errs := st.errs ++ patchErrors root p,
        vAdd := st.vAdd ++
          (if (validatePatch p).isNone ∧ p.Op = Add then [normalizePatch root p] else []),
        vRemove := st.vRemove ++
          (if (validatePatch p).isNone ∧ p.Op = Remove then [normalizePatch root p] else []),
        vMove := st.vMove ++
          (if (validatePatch p).isNone ∧ p.Op = Move then [normalizePatch root p] else []),
        vReplace := st.vReplace ++
          (if (validatePatch p).isNone ∧ p.Op = Replace then [normalizePatch root p] else []) } := by
  unfold processOne patchErrors normalizePatch
  cases hv : validatePatch p with
  | some e => simp [hv]
  | none =>
    rcases hp : validatePath p.Path p.Op root with ⟨fp1, e1⟩
    simp only [hv, hp, Option.isNone_none, true_and]
    by_cases hf : p.From = ""
    · simp only [hf]
      simp only [ne_eq, not_true_eq_false, if_false, ite_false]
      cases e1 <;>
        by_cases hA : p.Op = Add <;> by_cases hM : p.Op = Move <;>
          by_cases hR : p.Op = Remove <;> by_cases hRp : p.Op = Replace <;>
            simp_all [optErrList, op_ne_add_move, op_ne_add_remove, op_ne_add_replace,
              op_ne_move_remove, op_ne_move_replace, op_ne_remove_replace,
              op_ne_add_move.symm, op_ne_add_remove.symm, op_ne_add_replace.symm,
              op_ne_move_remove.symm, op_ne_move_replace.symm, op_ne_remove_replace.symm]
    · simp only [ne_eq, hf, not_false_eq_true, if_true, ite_true]
      rcases hfr : validateFrom p.From p.Op root with ⟨ff, e2⟩
      simp only [hfr]
      cases e1 <;> cases e2 <;>
        by_cases hA : p.Op = Add <;> by_cases hM : p.Op = Move <;>
          by_cases hR : p.Op = Remove <;> by_cases hRp : p.Op = Replace <;>
            simp_all [optErrList, op_ne_add_move, op_ne_add_remove, op_ne_add_replace,
              op_ne_move_remove, op_ne_move_replace, op_ne_remove_replace,
              op_ne_add_move.symm, op_ne_add_remove.symm, op_ne_add_replace.symm,
              op_ne_move_remove.symm, op_ne_move_replace.symm, op_ne_remove_replace.symm]


/-- Unfolding of a bucket over a cons. -/
lemma bucket_cons {α : Type} (root : PathSegment) (opName : String)
    (p : Patch α) (ps : List (Patch α)) :
    bucket root opName (p :: ps) =
      (if (validatePatch p).isNone ∧ p.Op = opName then [normalizePatch root p] else []) ++
        bucket root opName ps := by
  unfold bucket
  cases hv : (validatePatch p).isNone
  · simp [List.filter_cons, hv]
  · simp only [List.filter_cons, hv, if_true, List.map_cons, normalizePatch_Op, true_and]
    by_cases ho : p.Op = opName
    · simp [ho]
    · simp [ho]

/-- The whole loop, decomposed into the error concatenation and the four
buckets. -/
lemma foldl_processOne {α : Type} (root : PathSegment) (patches : List (Patch α)) :
    ∀ st : PState α,
      patches.foldl (processOne root) st =
        { errs := st.errs ++ collectErrors root patches,
          vAdd := st.vAdd ++ bucket root Add patches,
          vRemove := st.vRemove ++ bucket root Remove patches,
          vMove := st.vMove ++ bucket root Move patches,
          vReplace := st.vReplace ++ bucket root Replace patches } := by
  induction patches with
  | nil => intro st; simp [collectErrors, bucket]
  | cons p ps ih =>
    intro st
    rw [List.foldl_cons, ih, processOne_eq]
    simp [collectErrors, bucket_cons, List.append_assoc]

/-- Closed form of `ProcessPatches`: either every patch is clean and the
concatenated buckets go to the finalizer, or the collected errors are
returned with no patches. -/
lemma ProcessPatches_eq {α : Type} (patches : List (Patch α)) (root : PathSegment)
    (fin : List (Patch α) → Option (List (Patch α)) × List JError) :
    ProcessPatches patches ⟨root, fin⟩ =
      if collectErrors root patches = [] then
        fin (bucket root Remove patches ++ bucket root Replace patches ++
          bucket root Move patches ++ bucket root Add patches)
      else (none, collectErrors root patches) := by
  simp only [ProcessPatches]
  rw [foldl_processOne]
  by_cases h : collectErrors root patches = []
  · simp [h]
  · simp [h]

/-- A patch contributes no error exactly when it passes validation. -/
lemma patchErrors_eq_nil_iff {α : Type} (root : PathSegment) (p : Patch α) :
    patchErrors root p = [] ↔ patchOK root p := by
  unfold patchErrors patchOK
  cases hv : validatePatch p with
  | some e => simp [hv]
  | none =>
    simp only [hv, true_and]
    cases hp : (validatePath p.Path p.Op root).2 with
    | some e =>
      by_cases hf : p.From = "" <;> simp [hp, optErrList, hf]
    | none =>
      by_cases hf : p.From = ""
      · simp [hp, optErrList, hf]
      · cases hfr : (validateFrom p.From p.Op root).2 <;> simp [hp, hfr, optErrList, hf]

/-- A patch contributes at most two errors (path and from). -/
lemma patchErrors_length_le {α : Type} (root : PathSegment) (p : Patch α) :
    (patchErrors root p).length ≤ 2 := by
  unfold patchErrors
  cases hv : validatePatch p with
  | some e => simp
  | none =>
    cases hp : (validatePath p.Path p.Op root).2 <;>
      by_cases hf : p.From = "" <;>
        cases hfr : (validateFrom p.From p.Op root).2 <;>
          simp [optErrList, hf]

/-- No errors are collected exactly when every patch passes validation. -/
lemma collectErrors_eq_nil_iff {α : Type} (root : PathSegment)
    (patches : List (Patch α)) :
    collectErrors root patches = [] ↔ ∀ p ∈ patches, patchOK root p := by
  induction patches with
  | nil => simp [collectErrors]
  | cons p ps ih =>
    simp [collectErrors, List.append_eq_nil, ih, patchErrors_eq_nil_iff]


/-- C5: for a batch in which every patch passes validation,
`ProcessPatches` hands the finalizer the normalised patches partitioned
into four buckets by operation and concatenated in the fixed order all
removes, all replaces, all moves, all adds, each bucket preserving input
order; patches with op copy or test fall into no bucket, so they are
excluded from the handed list even though they were validated. -/
theorem c5_reorder_and_finalize {α : Type} (root : PathSegment)
    (fin : List (Patch α) → Option (List (Patch α)) × List JError)
    (patches : List (Patch α)) (h : ∀ p ∈ patches, patchOK root p) :
    ProcessPatches patches ⟨root, fin⟩ =
      fin (((patches.map (normalizePatch root)).filter (fun q => q.Op == Remove)) ++
        ((patches.map (normalizePatch root)).filter (fun q => q.Op == Replace)) ++
        ((patches.map (normalizePatch root)).filter (fun q => q.Op == Move)) ++
        ((patches.map (normalizePatch root)).filter (fun q => q.Op == Add))) := by
  have hnil : collectErrors root patches = [] :=
    (collectErrors_eq_nil_iff root patches).mpr h
  have hfilter : patches.filter (fun p => (validatePatch p).isNone) = patches :=
    List.filter_eq_self.mpr (fun p hp => by rw [(h p hp).1]; rfl)
  rw [ProcessPatches_eq, if_pos hnil]
  unfold bucket
  rw [hfilter]

/-- Witness for C5: a valid batch `[replace, add, remove, move]` is
reordered to `[remove, replace, move, add]` before finalization. -/
theorem c5_reorder_and_finalize_witness :
    ProcessPatches (α := String)
      [⟨Replace, "/rFoo/foo/baz", some "v1", ""⟩,
       ⟨Add, "/rFoo/foo/baz", some "v2", ""⟩,
       ⟨Remove, "/rFoo/foo/baz", none, ""⟩,
       ⟨Move, "/rFoo/foo/baz", none, "/rFoo/foo/baz"⟩]
      ⟨exRoot, idFinalizer String⟩ =
      (some [⟨Remove, "/foo/foo/baz", none, ""⟩,
        ⟨Replace, "/foo/foo/baz", some "v1", ""⟩,
        ⟨Move, "/foo/foo/baz", none, "/foo/foo/baz"⟩,
        ⟨Add, "/foo/foo/baz", some "v2", ""⟩], []) := by
  rw [c5_reorder_and_finalize exRoot (idFinalizer String) _ (by decide)]
  decide

/-- C6: for a batch in which at least one patch fails validation,
`ProcessPatches` returns `(none, complete error list)`; the result is the
same for every finalizer (so the finalizer is never consulted) and no
valid patch of the batch is returned individually. -/
theorem c6_batch_rejected {α : Type} (root : PathSegment)
    (fin : List (Patch α) → Option (List (Patch α)) × List JError)
    (patches : List (Patch α)) (h : ∃ p ∈ patches, ¬ patchOK root p) :
    ProcessPatches patches ⟨root, fin⟩ = (none, collectErrors root patches) ∧
    ∀ fin2, ProcessPatches patches ⟨root, fin⟩ = ProcessPatches patches ⟨root, fin2⟩ := by
  have hne : collectErrors root patches ≠ [] := by
    intro hc
    obtain ⟨p, hp, hnot⟩ := h
    exact hnot (((collectErrors_eq_nil_iff root patches).mp hc) p hp)
  constructor
  · rw [ProcessPatches_eq, if_neg hne]
  · intro fin2
    rw [ProcessPatches_eq, if_neg hne, ProcessPatches_eq, if_neg hne]

/-- Witness for C6: `[valid, invalid, valid]` yields `(none, [error for
the invalid patch])`. -/
theorem c6_batch_rejected_witness :
    ProcessPatches (α := String)
      [⟨Copy, "/rFoo/foo/bar", none, "/rFoo/foo/bar"⟩,
       ⟨"frobnicate", "/rFoo/foo/bar", none, ""⟩,
       ⟨Remove, "/rFoo/foo/bar", none, ""⟩]
      ⟨exRoot, idFinalizer String⟩ =
      (none, [⟨"Invalid operation", ErrorInvalidOperation,
        "supported operations are: add, remove, replace, copy, move and test"⟩]) := by
  rw [(c6_batch_rejected exRoot (idFinalizer String) _ (by decide)).1]
  decide

/-- Counterexample to C7 as stated: a single failing patch whose path and
from are both unknown contributes two errors to the returned list, not
exactly one error per failing patch. -/
theorem c7_counterexample :
    ProcessPatches (α := String)
      [⟨Copy, "/bogus", some "x", "/alsoBogus"⟩] ⟨exRoot, idFinalizer String⟩ =
      (none,
        [⟨"Invalid path", ErrorInvalidSegment, "unknown segement: bogus"⟩,
         ⟨"Invalid path", ErrorInvalidSegment, "unknown segement: alsoBogus"⟩]) := by
  decide

/-- C7 (amended): `ProcessPatches` validates every patch without
short-circuiting and, when any patch fails, returns the in-order
concatenation of the per-patch error lists, so errors match input order;
each patch contributes an empty list exactly when it passes validation
and otherwise at least one and at most two errors (one for its path, one
for its from) — not exactly one, as originally claimed. -/
theorem c7_error_accumulation {α : Type} (root : PathSegment)
    (fin : List (Patch α) → Option (List (Patch α)) × List JError)
    (patches : List (Patch α)) (h : ∃ p ∈ patches, ¬ patchOK root p) :
    ProcessPatches patches ⟨root, fin⟩ = (none, collectErrors root patches) ∧
    (∀ p ∈ patches, (patchErrors root p).length ≤ 2 ∧
      ((patchErrors root p) = [] ↔ patchOK root p)) := by
  refine ⟨?_, fun p _ => ⟨patchErrors_length_le root p, patchErrors_eq_nil_iff root p⟩⟩
  have hne : collectErrors root patches ≠ [] := by
    intro hc
    obtain ⟨p, hp, hnot⟩ := h
    exact hnot (((collectErrors_eq_nil_iff root patches).mp hc) p hp)
  rw [ProcessPatches_eq, if_neg hne]

/-- Witness for C7 (amended) at a one-patch batch carrying two errors. -/
theorem c7_error_accumulation_witness :
    ProcessPatches (α := String)
      [⟨Copy, "/bogus", some "x", "/alsoBogus"⟩] ⟨exRoot, idFinalizer String⟩ =
      (none, collectErrors exRoot [⟨Copy, "/bogus", some "x", "/alsoBogus"⟩]) ∧
    (∀ p ∈ ([⟨Copy, "/bogus", some "x", "/alsoBogus"⟩] : List (Patch String)),
      (patchErrors exRoot p).length ≤ 2 ∧
      ((patchErrors exRoot p) = [] ↔ patchOK exRoot p)) :=
  c7_error_accumulation exRoot (idFinalizer String) _ (by decide)

/-- C8: a from path of segments rFoo, wild2 and the append marker traces
to a terminal named `-`, yet `validateFrom` returns success: the source
compares the accumulated internal path (always slash-prefixed) — not the
terminal name — with `-`, so the required `InvalidOperation` failure can
never fire. -/
theorem c8_from_dash_check_dead :
    traceObjectPathString "/rFoo/wild2/-" Move exRoot =
      .ok ("/foo/wild2/-", some ⟨"-", ["add", "move", "copy"]⟩) ∧
    validateFrom "/rFoo/wild2/-" Move exRoot = ("/foo/wild2/-", none) :=
  ⟨by decide, by decide⟩

/-- Counterexample to C9 as stated: for op add, a non-empty from is traced
and causes a validation error when it is invalid, and a valid non-empty
from is rewritten to its internal path in the output rather than being
emptied. -/
theorem c9_counterexample :
    ProcessPatches (α := String)
      [⟨Add, "/rFoo/foo/baz", some "v", "/bogus"⟩] ⟨exRoot, idFinalizer String⟩ =
      (none, [⟨"Invalid path", ErrorInvalidSegment, "unknown segement: bogus"⟩]) ∧
    ProcessPatches (α := String)
      [⟨Add, "/rFoo/foo/baz", some "v", "/rFoo/foo/baz"⟩] ⟨exRoot, idFinalizer String⟩ =
      (some [⟨Add, "/foo/foo/baz", some "v", "/foo/foo/baz"⟩], []) :=
  ⟨by decide, by decide⟩

/-- C9 (amended): for every shape-valid patch whose op is not move or
copy and whose from is non-empty, the from path is validated through
`validateFrom` exactly as for move and copy — its error, when any, follows
the path error — and the normalised patch carries `validateFrom`'s
returned internal path as its from. -/
theorem c9_from_always_validated {α : Type} (root : PathSegment) (p : Patch α)
    (h1 : validatePatch p = none) (h2 : p.From ≠ "")
    (h3 : ¬(p.Op = Move ∨ p.Op = Copy)) :
    patchErrors root p =
      optErrList (validatePath p.Path p.Op root).2 ++
        optErrList (validateFrom p.From p.Op root).2 ∧
    (normalizePatch root p).From = (validateFrom p.From p.Op root).1 := by
  constructor
  · unfold patchErrors
    simp only [h1]
    cases hp : (validatePath p.Path p.Op root).2 <;>
      cases hfr : (validateFrom p.From p.Op root).2 <;>
        simp [optErrList, h2]
  · simp only [normalizePatch]
    simp [h2]

/-- Witness for C9 (amended) at an add patch with a valid from. -/
theorem c9_from_always_validated_witness :
    patchErrors exRoot (⟨Add, "/rFoo/foo/baz", some "v", "/rFoo/foo/baz"⟩ : Patch String) =
      optErrList (validatePath "/rFoo/foo/baz" Add exRoot).2 ++
        optErrList (validateFrom "/rFoo/foo/baz" Add exRoot).2 ∧
    (normalizePatch exRoot
        (⟨Add, "/rFoo/foo/baz", some "v", "/rFoo/foo/baz"⟩ : Patch String)).From =
      (validateFrom "/rFoo/foo/baz" Add exRoot).1 :=
  c9_from_always_validated exRoot _ (by decide) (by decide) (by decide)

end Jpatch
